import Mathlib

/-!
Verification of the Esp32-Mcp3008-LineSensor driver.

Shallow embedding of the driver sources:
  * `src/src/linesensor.cpp` / `linesensor.h` -- the self-contained revision:
    acquisition engine (`LineSensor::read`), inline calibration, and the
    noise-floor/threshold `readLine` estimator (the variant the spec
    designates as canonical in its section 9).
  * `src/src/mcp3008_linesensor.cpp` / `.h` -- the later revision:
    validating `setCalibration`, `calibrateValue`, the `calibrateResults`
    post-pass and the `LineSensorCalibrator`.

Machine integers are modelled as `Nat`/`Int` with explicit `% 2^w` at the
places where the C++ performs a narrowing conversion.  The SPI bus adapter
is modelled by an environment (`BusEnv`): reply bytes per request index, a
completion order for `spi_device_get_trans_result`, and injectable result
codes for the submit/collect calls (`0` = `ESP_OK`, nonzero = error).
-/

namespace Mcp3008

/-- Amount of channels on the chip (`LineSensor::CHANNELS`). -/
def CHANNELS : Nat := 8

/-- Maximum value returned by the chip, 10 bits (`LineSensor::MAX_VAL`). -/
def MAX_VAL : Nat := 1023

/-- The `ESP_OK` result code. -/
def ESP_OK : Int := 0

/-- The `ESP_FAIL` result code. -/
def ESP_FAIL : Int := -1

/-- Test of the channel mask: C++ `((1 << i) & mask) != 0`. -/
def channelEnabled (mask i : Nat) : Bool := (1 <<< i) &&& mask != 0

/-- The enabled channels in ascending order (the order the submission loop
walks them). -/
def enabledChannels (mask : Nat) : List Nat :=
  (List.range CHANNELS).filter (fun i => channelEnabled mask i)

/-- Number of enabled channels: the value of the `requested` counter after
the submission loop. -/
def popcount (mask : Nat) : Nat := (enabledChannels mask).length

/-- The request index of channel `c`: the number of enabled channels with
index `< c`.  This is the value of the running `requested`/`idx` counters of
the source loops when they reach channel `c`. -/
def requestIndex (mask c : Nat) : Nat :=
  (List.range c).countP (fun i => channelEnabled mask i)

/-- Outbound byte 1 of a channel-read command:
C++ `(!differential << 7) | ((i & 0x07) << 4)`. -/
def txByte1 (differential : Bool) (chan : Nat) : Nat :=
  ((if differential then 0 else 1) <<< 7) ||| ((chan &&& 0x07) <<< 4)

/-- One SPI transaction as filled in by `LineSensor::read`.  Only the fields
the driver sets are modelled; `tx2` is the zero coming from the
`transactions[CHANNELS] = { 0 }` aggregate initialization. -/
structure SpiTransaction where
  user : Nat
  length : Nat
  tx0 : Nat
  tx1 : Nat
  tx2 : Nat
deriving DecidableEq

/-- The transaction built for channel `chan` when the `requested` counter is
at `requested` (its `user` tag): `t.length = 3 * 8`, `t.tx_data[0] = 1`,
`t.tx_data[1] = (!differential << 7) | ((i & 0x07) << 4)`. -/
def mkTransaction (differential : Bool) (requested chan : Nat) : SpiTransaction :=
  { user := requested
    length := 3 * 8
    tx0 := 1
    tx1 := txByte1 differential chan
    tx2 := 0 }

/-- The submission loop of `LineSensor::read` over a list of channels,
threading the `requested` counter. -/
def submitLoop (differential : Bool) : List Nat → Nat → List SpiTransaction
  | [], _ => []
  | c :: rest, requested =>
      mkTransaction differential requested c :: submitLoop differential rest (requested + 1)

/-- All transactions submitted by one call of `LineSensor::read`. -/
def submittedTransactions (mask : Nat) (differential : Bool) : List SpiTransaction :=
  submitLoop differential (enabledChannels mask) 0

/-- Reconstruction of the 10-bit sample from the reply:
C++ `((trans->rx_data[1] & 0x03) << 8) | trans->rx_data[2]`. -/
def decodeSample (b1 b2 : Nat) : Nat := ((b1 &&& 0x03) <<< 8) ||| b2

/-- The per-value calibration remap (`LineSensor::calibrateValue`, and the
identical inline code of the older `LineSensor::read`):

    if (val <= min) return 0;
    val = int32_t(val - min) * MAX_VAL / range;   // uint16_t val: mod 2^16
    return std::min(MAX_VAL, val);

The `% 65536` is the narrowing conversion of the `int32_t` quotient back to
the `uint16_t` variable `val`.  When `rg = 0` the C++ division is undefined
behaviour; that situation is flagged by `calibrateDividesByZero` and this
function then returns the value of the same expression with Lean's
`x / 0 = 0` convention. -/
def calibrateValue (mn rg v : Nat) : Nat :=
  if v ≤ mn then 0
  else min MAX_VAL (((v - mn) * MAX_VAL / rg) % 65536)

/-- True exactly when the C++ `calibrateValue` evaluates `... / range` with
`range == 0`, i.e. when the division by zero is on the branch actually
taken. -/
def calibrateDividesByZero (mn rg v : Nat) : Bool :=
  !decide (v ≤ mn) && decide (rg = 0)

/-- The per-channel validity check of `LineSensor::setCalibration`: channel
`i` is offending when it is enabled and one of the three bounds fails. -/
def badChannel (mask : Nat) (data_min data_range : Nat → Nat) (i : Nat) : Bool :=
  channelEnabled mask i &&
    (decide (MAX_VAL < data_min i) || decide (MAX_VAL < data_range i) ||
      decide (MAX_VAL < data_min i + data_range i))

/-- Calibration data of the line sensor: per-channel `min` and `range`
arrays (`LineSensor::CalibrationData`). -/
structure CalibrationData where
  min : Nat → Nat
  range : Nat → Nat

/-- Model of `LineSensor::setCalibration` (mcp3008_linesensor.cpp): walk the
channels; on the first enabled channel violating a bound return `false` and
leave the stored calibration `cur` unchanged, otherwise store `data` and
return `true`.  The result pair is (returned bool, resulting stored
calibration). -/
def setCalibration (mask : Nat) (cur data : CalibrationData) : Bool × CalibrationData :=
  if (List.range CHANNELS).any (badChannel mask data.min data.range) then (false, cur)
  else (true, data)

/- ------------------------------------------------------------------ -/
/- Helper lemmas                                                      -/
/- ------------------------------------------------------------------ -/

lemma mem_enabledChannels {mask c : Nat} :
    c ∈ enabledChannels mask ↔ c < CHANNELS ∧ channelEnabled mask c = true := by
  simp [enabledChannels, List.mem_filter, List.mem_range, and_comm]

lemma enabledChannels_nodup (mask : Nat) : (enabledChannels mask).Nodup :=
  (List.nodup_range CHANNELS).filter _

lemma txByte1_inj :
    ∀ d : Bool, ∀ x, x < CHANNELS → ∀ y, y < CHANNELS →
      (txByte1 d x = txByte1 d y ↔ x = y) := by decide

/-- Counting the transactions whose byte 1 encodes channel `c` counts the
occurrences of `c` in the submitted channel list. -/
lemma countP_submitLoop (d : Bool) (c : Nat) (hc : c < CHANNELS) :
    ∀ (l : List Nat), (∀ x ∈ l, x < CHANNELS) → ∀ n,
      (submitLoop d l n).countP (fun t => decide (t.tx1 = txByte1 d c)) = l.count c := by
  intro l
  induction l with
  | nil => intro _ n; simp [submitLoop]
  | cons x rest ih =>
      intro hmem n
      have hx : x < CHANNELS := hmem x (List.mem_cons_self _ _)
      have hrest : ∀ y ∈ rest, y < CHANNELS := fun y hy => hmem y (List.mem_cons_of_mem _ hy)
      simp only [submitLoop, List.countP_cons, List.count_cons, ih hrest (n + 1)]
      have : ((mkTransaction d n x).tx1 = txByte1 d c) ↔ (x = c) := by
        simpa [mkTransaction] using txByte1_inj d x hx c hc
      by_cases h : x = c
      · subst h
        simp [mkTransaction]
      · simp [h, this]

lemma setCalibration_accepts (mask : Nat) (cur data : CalibrationData)
    (h : ∀ i, i < CHANNELS → channelEnabled mask i = true →
      data.min i ≤ MAX_VAL ∧ data.range i ≤ MAX_VAL ∧ data.min i + data.range i ≤ MAX_VAL) :
    setCalibration mask cur data = (true, data) := by
  unfold setCalibration
  rw [if_neg]
  simp only [List.any_eq_true, not_exists, not_and, List.mem_range]
  intro i hi
  rcases hb : channelEnabled mask i with _ | _
  · simp [badChannel, hb]
  · obtain ⟨h1, h2, h3⟩ := h i hi hb
    simp [badChannel, hb]
    omega

lemma setCalibration_rejects (mask : Nat) (cur data : CalibrationData)
    (h : ∃ i, i < CHANNELS ∧ channelEnabled mask i = true ∧
      (MAX_VAL < data.min i ∨ MAX_VAL < data.range i ∨ MAX_VAL < data.min i + data.range i)) :
    setCalibration mask cur data = (false, cur) := by
  obtain ⟨i, hi, he, hbad⟩ := h
  unfold setCalibration
  rw [if_pos]
  refine List.any_eq_true.mpr ⟨i, List.mem_range.mpr hi, ?_⟩
  simp [badChannel, he]
  omega

/- ------------------------------------------------------------------ -/
/- C2: wire encoding                                                  -/
/- ------------------------------------------------------------------ -/

/-- C2.  For every enabled channel `c` and every value of `differential`,
the submission loop of `read` submits exactly one transaction for `c` (the
one whose byte 1 encodes `c`), and every transaction for `c` has length
24 bits and outbound bytes `[0x01, ((differential?0:1)<<7)|((c&7)<<4), 0x00]`. -/
theorem read_wire_encoding (mask : Nat) (differential : Bool) (c : Nat)
    (hc : c < CHANNELS) (he : channelEnabled mask c = true) :
    ((submittedTransactions mask differential).countP
        (fun t => decide (t.tx1 = txByte1 differential c))) = 1 ∧
    ∀ t ∈ submittedTransactions mask differential, t.tx1 = txByte1 differential c →
      t.length = 24 ∧ t.tx0 = 1 ∧ t.tx2 = 0 := by
  constructor
  · rw [submittedTransactions,
      countP_submitLoop differential c hc (enabledChannels mask)
        (fun x hx => (mem_enabledChannels.mp hx).1) 0]
    exact List.count_eq_one_of_mem (enabledChannels_nodup mask)
      (mem_enabledChannels.mpr ⟨hc, he⟩)
  · intro t ht _
    have : ∀ (l : List Nat) (n : Nat), t ∈ submitLoop differential l n →
        t.length = 24 ∧ t.tx0 = 1 ∧ t.tx2 = 0 := by
      intro l
      induction l with
      | nil => intro n h; simp [submitLoop] at h
      | cons x rest ih =>
          intro n h
          rcases List.mem_cons.mp h with h | h
          · subst h; exact ⟨rfl, rfl, rfl⟩
          · exact ih (n + 1) h
    exact this (enabledChannels mask) 0 ht

/-- Witness for C2 at mask `0x85` (channels 0, 2, 7), channel 7. -/
theorem read_wire_encoding_witness :
    ((submittedTransactions 0x85 false).countP
        (fun t => decide (t.tx1 = txByte1 false 7))) = 1 :=
  (read_wire_encoding 0x85 false 7 (by decide) (by decide)).1

/- ------------------------------------------------------------------ -/
/- C5: calibration remap safety                                       -/
/- ------------------------------------------------------------------ -/

/-- C5, counterexample.  The calibration pair `(min, range) = (0, 0)`
satisfies all three invariants enforced by `setCalibration`
(`min ≤ MAX_VAL`, `range ≤ MAX_VAL`, `min + range ≤ MAX_VAL`), the raw
sample `1` is in `[0, MAX_VAL]`, and yet the remap takes the division
branch with `range = 0`: the claimed well-definedness fails. -/
theorem calibrateValue_divzero_cex :
    (0 : Nat) ≤ MAX_VAL ∧ (0 : Nat) ≤ MAX_VAL ∧ 0 + 0 ≤ MAX_VAL ∧ (1 : Nat) ≤ MAX_VAL ∧
    calibrateDividesByZero 0 0 1 = true := by decide

/-- C5, amended.  For every calibration pair satisfying the `setCalibration`
invariants and additionally `range ≥ 1`, and every raw sample
`v ≤ MAX_VAL`, the remap never divides by zero on the branch actually taken
and its result lies in `[0, MAX_VAL]`. -/
theorem calibrateValue_valid (mn rg v : Nat)
    (h1 : mn ≤ MAX_VAL) (h2 : rg ≤ MAX_VAL) (h3 : mn + rg ≤ MAX_VAL)
    (h4 : 1 ≤ rg) (h5 : v ≤ MAX_VAL) :
    calibrateDividesByZero mn rg v = false ∧ calibrateValue mn rg v ≤ MAX_VAL := by
  constructor
  · simp [calibrateDividesByZero]
    omega
  · unfold calibrateValue
    split
    · exact Nat.zero_le _
    · exact Nat.min_le_left _ _

/-- Witness for C5 (amended) at the spec's scenario-G calibration
`(min, range) = (100, 500)` and raw sample `350`. -/
theorem calibrateValue_valid_witness :
    calibrateDividesByZero 100 500 350 = false ∧ calibrateValue 100 500 350 ≤ MAX_VAL :=
  calibrateValue_valid 100 500 350 (by decide) (by decide) (by decide) (by decide) (by decide)

/- ------------------------------------------------------------------ -/
/- C4: setCalibration validation                                      -/
/- ------------------------------------------------------------------ -/

/-- C4.  `setCalibration` returns `true` and stores its argument exactly
when every enabled channel satisfies the three bounds; otherwise it returns
`false` and the stored calibration is unchanged. -/
theorem setCalibration_spec (mask : Nat) (cur data : CalibrationData) :
    setCalibration mask cur data =
      if ∀ i, i < CHANNELS → channelEnabled mask i = true →
          data.min i ≤ MAX_VAL ∧ data.range i ≤ MAX_VAL ∧
            data.min i + data.range i ≤ MAX_VAL
      then (true, data) else (false, cur) := by
  by_cases h : ∀ i, i < CHANNELS → channelEnabled mask i = true →
      data.min i ≤ MAX_VAL ∧ data.range i ≤ MAX_VAL ∧ data.min i + data.range i ≤ MAX_VAL
  · rw [if_pos h]
    exact setCalibration_accepts mask cur data h
  · rw [if_neg h]
    push_neg at h
    obtain ⟨i, hi, he, hbad⟩ := h
    refine setCalibration_rejects mask cur data ⟨i, hi, he, ?_⟩
    by_cases a1 : data.min i ≤ MAX_VAL
    · by_cases a2 : data.range i ≤ MAX_VAL
      · have := hbad a1 a2
        omega
      · omega
    · omega

/- ------------------------------------------------------------------ -/
/- Acquisition engine: LineSensor::read (linesensor.cpp)              -/
/- ------------------------------------------------------------------ -/

/-- Model of `LineSensor::requestToChannel`: the loop body, with the
remaining iteration count as fuel (the loop runs over the 8 channels); on
falling out of the loop the source logs an error and returns 0. -/
def requestToChannelGo (mask request : Nat) : Nat → Nat → Nat → Nat
  | 0, _, _ => 0
  | fuel + 1, i, requested =>
      if channelEnabled mask i then
        if requested = request then i
        else requestToChannelGo mask request fuel (i + 1) (requested + 1)
      else requestToChannelGo mask request fuel (i + 1) requested

/-- Model of `LineSensor::requestToChannel`: with a full mask the request
index is returned unchanged, otherwise the channels are scanned for the
one whose rank equals `request`. -/
def requestToChannel (mask request : Nat) : Nat :=
  if mask = 0xFF then request else requestToChannelGo mask request CHANNELS 0 0

/-- The bus-adapter environment of one `read` call.  `rx1 j`/`rx2 j` are
the reply bytes `rx_data[1]`/`rx_data[2]` of the transaction whose `user`
tag is `j`; `order i` is the tag of the transaction that
`spi_device_get_trans_result` hands back at collection iteration `i`
(completion may happen in any order); `submitRes i` and `collectRes i` are
the result codes of `spi_device_queue_trans` at channel `i` and of
`spi_device_get_trans_result` at iteration `i` (`0` = `ESP_OK`). -/
structure BusEnv where
  rx1 : Nat → Nat
  rx2 : Nat → Nat
  order : Nat → Nat
  submitRes : Nat → Int
  collectRes : Nat → Int

/-- First error code hit by the submission loop, if any: the loop returns
the adapter's code as soon as `spi_device_queue_trans` fails on an enabled
channel. -/
def firstSubmitErr (mask : Nat) (env : BusEnv) : Option Int :=
  ((enabledChannels mask).find? (fun i => decide (env.submitRes i ≠ 0))).map env.submitRes

/-- The collection loop of `LineSensor::read` (iterations `i`,
`i+1`, ..., one per remaining `fuel` unit):

    for(int i = 0; i < requested; ++i) {
        res = spi_device_get_trans_result(...);      // returns tag order i
        if(res != ESP_OK) return res;
        const int idx = (int)trans->user;
        uint16_t val = decode(rx_data);
        if(useCalibration) {
            const int chan = requestToChannel(i);    // note: i, not idx
            ... remap val with m_calibration.min/range[chan] ...
        }
        dest[idx] = val;
    }
    return ESP_OK; -/
def collectGo (mask : Nat) (cal : CalibrationData) (useCalibration : Bool) (env : BusEnv) :
    Nat → Nat → (Nat → Nat) → Int × (Nat → Nat)
  | 0, _, dest => (ESP_OK, dest)
  | fuel + 1, i, dest =>
      if env.collectRes i ≠ 0 then (env.collectRes i, dest)
      else
        let idx := env.order i
        let raw := decodeSample (env.rx1 idx) (env.rx2 idx)
        let val :=
          if useCalibration then
            calibrateValue (cal.min (requestToChannel mask i))
              (cal.range (requestToChannel mask i)) raw
          else raw
        collectGo mask cal useCalibration env fuel (i + 1) (Function.update dest idx val)

/-- Model of `esp_err_t LineSensor::read(uint16_t *dest, bool, bool)`:
fail when not installed; submit one transaction per enabled channel,
propagating the first submit error; succeed immediately on an empty mask;
otherwise collect exactly `popcount mask` completions.  The result is the
returned code together with the final contents of `dest` (as a function
from array index to value). -/
def readPtr (installed : Bool) (mask : Nat) (cal : CalibrationData)
    (useCalibration differential : Bool) (env : BusEnv) (dest : Nat → Nat) :
    Int × (Nat → Nat) :=
  if !installed then (ESP_FAIL, dest)
  else
    match firstSubmitErr mask env with
    | some e => (e, dest)
    | none =>
        if popcount mask = 0 then (ESP_OK, dest)
        else collectGo mask cal useCalibration env (popcount mask) 0 dest

/-- With error-free collection and no calibration, the collection loop
returns `ESP_OK`, writes `decodeSample (rx1 k) (rx2 k)` to every slot `k`
covered by the completion order in the remaining iterations, and leaves
every other slot unchanged. -/
lemma collectGo_raw_spec (mask : Nat) (cal : CalibrationData) (env : BusEnv)
    (hcol : ∀ i, env.collectRes i = 0) :
    ∀ (fuel i : Nat) (dest : Nat → Nat),
      (collectGo mask cal false env fuel i dest).1 = ESP_OK ∧
      ∀ k,
        ((∃ t, i ≤ t ∧ t < i + fuel ∧ env.order t = k) →
          (collectGo mask cal false env fuel i dest).2 k =
            decodeSample (env.rx1 k) (env.rx2 k)) ∧
        ((∀ t, i ≤ t → t < i + fuel → env.order t ≠ k) →
          (collectGo mask cal false env fuel i dest).2 k = dest k) := by
  intro fuel
  induction fuel with
  | zero =>
      intro i dest
      refine ⟨rfl, fun k => ⟨?_, fun _ => rfl⟩⟩
      rintro ⟨t, ht1, ht2, -⟩
      omega
  | succ fuel ih =>
      intro i dest
      have hstep : collectGo mask cal false env (fuel + 1) i dest =
          collectGo mask cal false env fuel (i + 1)
            (Function.update dest (env.order i)
              (decodeSample (env.rx1 (env.order i)) (env.rx2 (env.order i)))) := by
        simp [collectGo, hcol i]
      rw [hstep]
      obtain ⟨hok, hk⟩ := ih (i + 1)
        (Function.update dest (env.order i)
          (decodeSample (env.rx1 (env.order i)) (env.rx2 (env.order i))))
      refine ⟨hok, fun k => ⟨?_, ?_⟩⟩
      · rintro ⟨t, ht1, ht2, ht3⟩
        by_cases hlater : ∃ t, i + 1 ≤ t ∧ t < i + 1 + fuel ∧ env.order t = k
        · exact (hk k).1 hlater
        · have hti : t = i := by
            by_contra hne
            exact hlater ⟨t, by omega, by omega, ht3⟩
          have horder : env.order i = k := by rw [← hti]; exact ht3
          have hnone : ∀ s, i + 1 ≤ s → s < i + 1 + fuel → env.order s ≠ k := by
            intro s hs1 hs2 hs3
            exact hlater ⟨s, hs1, hs2, hs3⟩
          rw [(hk k).2 hnone, ← horder]
          simp [Function.update]
      · intro hnone
        have : ∀ s, i + 1 ≤ s → s < i + 1 + fuel → env.order s ≠ k := by
          intro s hs1 hs2
          exact hnone s (by omega) (by omega)
        rw [(hk k).2 this]
        exact Function.update_noteq (Ne.symm (hnone i (by omega) (by omega))) _ _

/-- C1.  On an installed driver, for every mask and every completion order
that hands back each submitted transaction exactly once, an error-free
uncalibrated `read` returns `ESP_OK`, writes the decoded sample
`((rx1 & 0x03) << 8) | rx2` of the `j`-th enabled channel's reply to
`dest[j]` for every request index `j < popcount mask`, and leaves every
slot at index `≥ popcount mask` unchanged (an empty mask writes nothing
and succeeds). -/
theorem read_raw (mask : Nat) (cal : CalibrationData) (differential : Bool)
    (env : BusEnv) (dest : Nat → Nat)
    (hsub : ∀ i, env.submitRes i = 0)
    (hcol : ∀ i, env.collectRes i = 0)
    (hbound : ∀ i, i < popcount mask → env.order i < popcount mask)
    (hsurj : ∀ j, j < popcount mask → ∃ i, i < popcount mask ∧ env.order i = j) :
    (readPtr true mask cal false differential env dest).1 = ESP_OK ∧
    (∀ j, j < popcount mask →
      (readPtr true mask cal false differential env dest).2 j =
        decodeSample (env.rx1 j) (env.rx2 j)) ∧
    (∀ k, popcount mask ≤ k →
      (readPtr true mask cal false differential env dest).2 k = dest k) := by
  have hnoerr : firstSubmitErr mask env = none := by
    unfold firstSubmitErr
    rw [List.find?_eq_none.mpr]
    · rfl
    · intro i _
      simp [hsub i]
  by_cases hzero : popcount mask = 0
  · refine ⟨?_, ?_, ?_⟩ <;> simp [readPtr, hnoerr, hzero]
  · have hread : readPtr true mask cal false differential env dest =
        collectGo mask cal false env (popcount mask) 0 dest := by
      simp [readPtr, hnoerr, hzero]
    obtain ⟨hok, hk⟩ := collectGo_raw_spec mask cal env hcol (popcount mask) 0 dest
    refine ⟨hread ▸ hok, ?_, ?_⟩
    · intro j hj
      rw [hread]
      obtain ⟨i, hi, hoi⟩ := hsurj j hj
      exact (hk j).1 ⟨i, by omega, by omega, hoi⟩
    · intro k hkk
      rw [hread]
      refine (hk k).2 ?_
      intro t _ ht
      have := hbound t (by omega)
      omega

/-- The identity calibration of the driver's default state. -/
def calIdentity : CalibrationData := { min := fun _ => 0, range := fun _ => MAX_VAL }

/-- Bus environment of the spec's scenario B: mask `0x85`, replies decoding
to samples 100, 500, 900 for request indices 0, 1, 2, collected in reverse
completion order. -/
def envScenarioB : BusEnv :=
  { rx1 := fun j => if j = 0 then 0 else if j = 1 then 1 else 3
    rx2 := fun j => if j = 0 then 100 else if j = 1 then 244 else 132
    order := fun i => 2 - i
    submitRes := fun _ => 0
    collectRes := fun _ => 0 }

/-- Witness for C1: scenario B, mask `0x85`, replies collected in reverse
order still land as `[100, 500, 900]` by request index, and the slot past
the three requested samples stays untouched. -/
theorem read_raw_witness :
    (readPtr true 0x85 calIdentity false false envScenarioB (fun _ => 0)).1 = ESP_OK ∧
    (readPtr true 0x85 calIdentity false false envScenarioB (fun _ => 0)).2 0 = 100 ∧
    (readPtr true 0x85 calIdentity false false envScenarioB (fun _ => 0)).2 1 = 500 ∧
    (readPtr true 0x85 calIdentity false false envScenarioB (fun _ => 0)).2 2 = 900 ∧
    (readPtr true 0x85 calIdentity false false envScenarioB (fun _ => 0)).2 3 = 0 := by
  have h := read_raw 0x85 calIdentity false envScenarioB (fun _ => 0)
    (fun _ => rfl) (fun _ => rfl) (by decide) (by decide)
  exact ⟨h.1,
    (h.2.1 0 (by decide)).trans (by decide),
    (h.2.1 1 (by decide)).trans (by decide),
    (h.2.1 2 (by decide)).trans (by decide),
    (h.2.2 3 (by decide)).trans rfl⟩

/- ------------------------------------------------------------------ -/
/- C3: calibrated read and completion order                           -/
/- ------------------------------------------------------------------ -/

/-- Calibration used by the C3 failing input: channel 0 has the identity
pair `(0, 1023)`, channel 1 has `(100, 900)` (valid: `100 + 900 ≤ 1023`). -/
def calMisindex : CalibrationData :=
  { min := fun i => if i = 1 then 100 else 0
    range := fun i => if i = 1 then 900 else 1023 }

/-- Bus environment of the C3 failing input: mask `0x03` (channels 0 and
1), both replies decode to the raw sample 50, and the adapter completes
the transactions in reverse order (tag 1 first, then tag 0). -/
def envMisindex : BusEnv :=
  { rx1 := fun _ => 0
    rx2 := fun _ => 50
    order := fun i => 1 - i
    submitRes := fun _ => 0
    collectRes := fun _ => 0 }

/-- C3, failing input.  With mask `0x03` and reverse completion order, the
calibrated `read` of linesensor.cpp stores 50 at request index 1: the
channel-1 sample was remapped with channel 0's identity calibration
(because the code computes the channel from the collection-loop position
`i`, not from the completed transaction's request index).  The claim — and
the `calibrateResults` post-pass of mcp3008_linesensor.cpp — require the
sample at request index 1 to be remapped with channel 1's pair
`(100, 900)`, which maps the raw 50 to 0. -/
theorem read_calibration_misindex :
    envMisindex.order 0 = 1 ∧ envMisindex.order 1 = 0 ∧
    decodeSample (envMisindex.rx1 1) (envMisindex.rx2 1) = 50 ∧
    calibrateValue (calMisindex.min 1) (calMisindex.range 1)
      (decodeSample (envMisindex.rx1 1) (envMisindex.rx2 1)) = 0 ∧
    (readPtr true 0x03 calMisindex true false envMisindex (fun _ => 0)).2 1 = 50 ∧
    (readPtr true 0x03 calMisindex true false envMisindex (fun _ => 0)).2 1 ≠
      calibrateValue (calMisindex.min 1) (calMisindex.range 1)
        (decodeSample (envMisindex.rx1 1) (envMisindex.rx2 1)) := by decide

/- ------------------------------------------------------------------ -/
/- Calibrated-read post-pass of mcp3008_linesensor.cpp                -/
/- ------------------------------------------------------------------ -/

/-- Model of `LineSensor::calibrateResults`: walk enabled channels in
ascending order, remapping `dest[resIdx]` in place with the calibration of
channel `chan` (the `resIdx` counter is the request index of `chan`). -/
def calibrateResults (mask : Nat) (cal : CalibrationData) (dest : Nat → Nat) : Nat → Nat :=
  ((enabledChannels mask).foldl
    (fun st chan =>
      (st.1 + 1,
        Function.update st.2 st.1 (calibrateValue (cal.min chan) (cal.range chan) (st.2 st.1))))
    (0, dest)).2

/- ------------------------------------------------------------------ -/
/- LineSensorCalibrator                                               -/
/- ------------------------------------------------------------------ -/

/-- State of a `LineSensorCalibrator`: `dataMin`/`dataRange` are
`m_data.min`/`m_data.range`, `obsMax` is `m_max` (all `uint16_t[8]`). -/
structure CalibratorState where
  dataMin : Nat → Nat
  dataRange : Nat → Nat
  obsMax : Nat → Nat

/-- Model of `LineSensorCalibrator::reset`: set every `m_data.min[i]` to
`MAX_VAL` and every `m_max[i]` to 0 (`m_data.range` is not touched). -/
def reset (st : CalibratorState) : CalibratorState :=
  { st with dataMin := fun _ => MAX_VAL, obsMax := fun _ => 0 }

/-- Model of one successful `LineSensorCalibrator::record` that observed
the raw samples `vals` (indexed by request index).  The source walks the
channels with a running `idx` counter over enabled ones — `idx` equals
`requestIndex mask i` when the loop reaches channel `i` — and tightens
`m_data.min[i]` and `m_max[i]` with `vals[idx]`. -/
def record (mask : Nat) (vals : Nat → Nat) (st : CalibratorState) : CalibratorState :=
  { st with
    dataMin := fun i =>
      if i < CHANNELS ∧ channelEnabled mask i = true ∧
          vals (requestIndex mask i) < st.dataMin i
      then vals (requestIndex mask i) else st.dataMin i
    obsMax := fun i =>
      if i < CHANNELS ∧ channelEnabled mask i = true ∧
          st.obsMax i < vals (requestIndex mask i)
      then vals (requestIndex mask i) else st.obsMax i }

/-- A sequence of successful `record` calls observing the sample vectors of
`l` in order. -/
def recordAll (mask : Nat) (l : List (Nat → Nat)) (st : CalibratorState) : CalibratorState :=
  l.foldl (fun s vals => record mask vals s) st

/-- The `CalibrationData` assembled by `LineSensorCalibrator::save`:
`m_data.range[i] = m_max[i] - m_data.min[i]` in `uint16_t` arithmetic
(wrapping modulo `2^16`; the fields are `uint16_t`, hence `< 65536`). -/
def saveData (st : CalibratorState) : CalibrationData :=
  { min := st.dataMin
    range := fun i => (st.obsMax i + 65536 - st.dataMin i) % 65536 }

/-- Model of `LineSensorCalibrator::save`: compute the ranges and push the
data into the parent driver via `setCalibration`.  The result pair is
(`setCalibration`'s bool, the parent's resulting calibration). -/
def save (mask : Nat) (cur : CalibrationData) (st : CalibratorState) : Bool × CalibrationData :=
  setCalibration mask cur (saveData st)

/- Fold characterizations of the record loop. -/

lemma recordAll_dataMin (mask : Nat) (l : List (Nat → Nat)) (st : CalibratorState)
    (c : Nat) (hc : c < CHANNELS) (he : channelEnabled mask c = true) :
    (recordAll mask l st).dataMin c =
      (l.map (fun v => v (requestIndex mask c))).foldl
        (fun a x => if x < a then x else a) (st.dataMin c) := by
  induction l generalizing st with
  | nil => rfl
  | cons v rest ih =>
      show (recordAll mask rest (record mask v st)).dataMin c = _
      rw [ih (record mask v st)]
      simp only [List.map_cons, List.foldl_cons]
      congr 1
      simp [record, hc, he]

lemma recordAll_obsMax (mask : Nat) (l : List (Nat → Nat)) (st : CalibratorState)
    (c : Nat) (hc : c < CHANNELS) (he : channelEnabled mask c = true) :
    (recordAll mask l st).obsMax c =
      (l.map (fun v => v (requestIndex mask c))).foldl
        (fun a x => if a < x then x else a) (st.obsMax c) := by
  induction l generalizing st with
  | nil => rfl
  | cons v rest ih =>
      show (recordAll mask rest (record mask v st)).obsMax c = _
      rw [ih (record mask v st)]
      simp only [List.map_cons, List.foldl_cons]
      congr 1
      simp [record, hc, he]

lemma foldlMin_le_init (l : List Nat) :
    ∀ init, l.foldl (fun a x => if x < a then x else a) init ≤ init := by
  induction l with
  | nil => intro init; exact Nat.le_refl _
  | cons x rest ih =>
      intro init
      refine Nat.le_trans (ih _) ?_
      dsimp only
      split <;> omega

lemma foldlMin_le_mem (l : List Nat) :
    ∀ init, ∀ x ∈ l, l.foldl (fun a x => if x < a then x else a) init ≤ x := by
  induction l with
  | nil => intro _ x hx; cases hx
  | cons y rest ih =>
      intro init x hx
      rcases List.mem_cons.mp hx with h | h
      · subst h
        refine Nat.le_trans (foldlMin_le_init rest _) ?_
        dsimp only
        split <;> omega
      · exact ih _ x h

lemma foldlMin_cases (l : List Nat) :
    ∀ init, l.foldl (fun a x => if x < a then x else a) init = init ∨
      l.foldl (fun a x => if x < a then x else a) init ∈ l := by
  induction l with
  | nil => intro init; exact Or.inl rfl
  | cons y rest ih =>
      intro init
      rcases ih (if y < init then y else init) with h | h
      · by_cases hy : y < init
        · right
          rw [List.foldl_cons, h, if_pos hy]
          exact List.mem_cons_self _ _
        · left
          rw [List.foldl_cons, h, if_neg hy]
      · exact Or.inr (List.mem_cons_of_mem _ h)

lemma foldlMax_init_le (l : List Nat) :
    ∀ init, init ≤ l.foldl (fun a x => if a < x then x else a) init := by
  induction l with
  | nil => intro init; exact Nat.le_refl _
  | cons x rest ih =>
      intro init
      refine Nat.le_trans ?_ (ih _)
      dsimp only
      split <;> omega

lemma foldlMax_mem_le (l : List Nat) :
    ∀ init, ∀ x ∈ l, x ≤ l.foldl (fun a x => if a < x then x else a) init := by
  induction l with
  | nil => intro _ x hx; cases hx
  | cons y rest ih =>
      intro init x hx
      rcases List.mem_cons.mp hx with h | h
      · subst h
        refine Nat.le_trans ?_ (foldlMax_init_le rest _)
        dsimp only
        split <;> omega
      · exact ih _ x h

lemma foldlMax_cases (l : List Nat) :
    ∀ init, l.foldl (fun a x => if a < x then x else a) init = init ∨
      l.foldl (fun a x => if a < x then x else a) init ∈ l := by
  induction l with
  | nil => intro init; exact Or.inl rfl
  | cons y rest ih =>
      intro init
      rcases ih (if init < y then y else init) with h | h
      · by_cases hy : init < y
        · right
          rw [List.foldl_cons, h, if_pos hy]
          exact List.mem_cons_self _ _
        · left
          rw [List.foldl_cons, h, if_neg hy]
      · exact Or.inr (List.mem_cons_of_mem _ h)

/- ------------------------------------------------------------------ -/
/- C9: calibrator save correctness                                    -/
/- ------------------------------------------------------------------ -/

/-- C9.  After a `reset` followed by at least one successful `record` of
sample vectors whose samples all lie in `[0, MAX_VAL]`, `save` pushes an
accepted calibration in which, for every enabled channel `c`, `min c` is
the minimum of the observed samples of `c` and `range c` is their maximum
minus that minimum. -/
theorem calibrator_save (mask : Nat) (l : List (Nat → Nat))
    (cur : CalibrationData) (st : CalibratorState)
    (hl : l ≠ [])
    (hb : ∀ v ∈ l, ∀ j, v j ≤ MAX_VAL) :
    (save mask cur (recordAll mask l (reset st))).1 = true ∧
    ∀ c, c < CHANNELS → channelEnabled mask c = true →
      ((save mask cur (recordAll mask l (reset st))).2.min c ∈
          l.map (fun v => v (requestIndex mask c)) ∧
        ∀ x ∈ l.map (fun v => v (requestIndex mask c)),
          (save mask cur (recordAll mask l (reset st))).2.min c ≤ x) ∧
      ∃ mx, (mx ∈ l.map (fun v => v (requestIndex mask c)) ∧
          ∀ x ∈ l.map (fun v => v (requestIndex mask c)), x ≤ mx) ∧
        (save mask cur (recordAll mask l (reset st))).2.range c =
          mx - (save mask cur (recordAll mask l (reset st))).2.min c := by
  set stR := recordAll mask l (reset st) with hstR
  have hobs : ∀ c, ∀ x ∈ l.map (fun v => v (requestIndex mask c)), x ≤ MAX_VAL := by
    intro c x hx
    obtain ⟨v, hv, rfl⟩ := List.mem_map.mp hx
    exact hb v hv _
  have hne : ∀ c, l.map (fun v => v (requestIndex mask c)) ≠ [] := by
    intro c h
    exact hl (List.map_eq_nil_iff.mp h)
  -- per-channel characterization of the state after the records
  have hmin : ∀ c, c < CHANNELS → channelEnabled mask c = true →
      stR.dataMin c =
        (l.map (fun v => v (requestIndex mask c))).foldl
          (fun a x => if x < a then x else a) MAX_VAL := by
    intro c hc he
    rw [hstR, recordAll_dataMin mask l (reset st) c hc he]
    rfl
  have hmax : ∀ c, c < CHANNELS → channelEnabled mask c = true →
      stR.obsMax c =
        (l.map (fun v => v (requestIndex mask c))).foldl
          (fun a x => if a < x then x else a) 0 := by
    intro c hc he
    rw [hstR, recordAll_obsMax mask l (reset st) c hc he]
    rfl
  -- bounds on the recorded minima / maxima of enabled channels
  have hkey : ∀ c, c < CHANNELS → channelEnabled mask c = true →
      stR.dataMin c ∈ l.map (fun v => v (requestIndex mask c)) ∧
      (∀ x ∈ l.map (fun v => v (requestIndex mask c)), stR.dataMin c ≤ x) ∧
      stR.obsMax c ∈ l.map (fun v => v (requestIndex mask c)) ∧
      (∀ x ∈ l.map (fun v => v (requestIndex mask c)), x ≤ stR.obsMax c) := by
    intro c hc he
    set obs := l.map (fun v => v (requestIndex mask c)) with hobsdef
    obtain ⟨x0, hx0⟩ := List.exists_mem_of_ne_nil obs (hne c)
    have hminle : ∀ x ∈ obs, stR.dataMin c ≤ x := by
      intro x hx
      rw [hmin c hc he]
      exact foldlMin_le_mem obs MAX_VAL x hx
    have hmaxge : ∀ x ∈ obs, x ≤ stR.obsMax c := by
      intro x hx
      rw [hmax c hc he]
      exact foldlMax_mem_le obs 0 x hx
    refine ⟨?_, hminle, ?_, hmaxge⟩
    · rcases hmin c hc he ▸ foldlMin_cases obs MAX_VAL with h | h
      · -- the fold stayed at the sentinel: every sample equals MAX_VAL
        have hx0top : x0 = MAX_VAL :=
          Nat.le_antisymm (hobs c x0 hx0) (h ▸ hminle x0 hx0)
        rw [h, ← hx0top]
        exact hx0
      · exact h
    · rcases hmax c hc he ▸ foldlMax_cases obs 0 with h | h
      · -- the fold stayed at the 0 sentinel: every sample equals 0
        have hx0z : x0 = 0 := Nat.le_antisymm (h ▸ hmaxge x0 hx0) (Nat.zero_le _)
        rw [h, ← hx0z]
        exact hx0
      · exact h
  -- the saved data passes setCalibration's validation
  have haccept : setCalibration mask cur (saveData stR) = (true, saveData stR) := by
    refine setCalibration_accepts mask cur (saveData stR) ?_
    intro i hi he
    obtain ⟨hmem, hlb, hmxmem, hub⟩ := hkey i hi he
    have h1 : stR.dataMin i ≤ MAX_VAL := hobs i _ hmem
    have h2 : stR.obsMax i ≤ MAX_VAL := hobs i _ hmxmem
    have h3 : stR.dataMin i ≤ stR.obsMax i := by
      obtain ⟨x0, hx0⟩ := List.exists_mem_of_ne_nil _ (hne i)
      exact Nat.le_trans (hlb x0 hx0) (hub x0 hx0)
    have hM : MAX_VAL = 1023 := rfl
    have hrange : (saveData stR).range i = stR.obsMax i - stR.dataMin i := by
      show (stR.obsMax i + 65536 - stR.dataMin i) % 65536 = _
      have heq : stR.obsMax i + 65536 - stR.dataMin i =
          65536 + (stR.obsMax i - stR.dataMin i) := by omega
      rw [heq, Nat.add_mod_left, Nat.mod_eq_of_lt (by omega)]
    have hminproj : (saveData stR).min i = stR.dataMin i := rfl
    refine ⟨?_, ?_, ?_⟩
    · rw [hminproj]; omega
    · rw [hrange]; omega
    · rw [hminproj, hrange]; omega
  have hsave : save mask cur stR = (true, saveData stR) := haccept
  refine ⟨by rw [hsave], ?_⟩
  intro c hc he
  obtain ⟨hmem, hlb, hmxmem, hub⟩ := hkey c hc he
  have hmineq : (save mask cur stR).2.min c = stR.dataMin c := by rw [hsave]; rfl
  have h1 : stR.dataMin c ≤ MAX_VAL := hobs c _ hmem
  have h2 : stR.obsMax c ≤ MAX_VAL := hobs c _ hmxmem
  have hM : MAX_VAL = 1023 := rfl
  have hrange : (save mask cur stR).2.range c = stR.obsMax c - stR.dataMin c := by
    rw [hsave]
    show (stR.obsMax c + 65536 - stR.dataMin c) % 65536 = _
    have h3 : stR.dataMin c ≤ stR.obsMax c := by
      obtain ⟨x0, hx0⟩ := List.exists_mem_of_ne_nil _ (hne c)
      exact Nat.le_trans (hlb x0 hx0) (hub x0 hx0)
    have heq : stR.obsMax c + 65536 - stR.dataMin c =
        65536 + (stR.obsMax c - stR.dataMin c) := by omega
    rw [heq, Nat.add_mod_left, Nat.mod_eq_of_lt (by omega)]
  refine ⟨⟨hmineq ▸ hmem, fun x hx => hmineq ▸ hlb x hx⟩,
    stR.obsMax c, ⟨hmxmem, hub⟩, ?_⟩
  rw [hrange, hmineq]

/-- Concrete calibrator state for witnesses. -/
def stZero : CalibratorState :=
  { dataMin := fun _ => 0, dataRange := fun _ => 0, obsMax := fun _ => 0 }

/-- Witness for C9: mask `0x01`, two records observing samples 100 and 50
on channel 0; the saved calibration is accepted. -/
theorem calibrator_save_witness :
    (save 0x01 calIdentity
      (recordAll 0x01 [fun _ => 100, fun _ => 50] (reset stZero))).1 = true := by
  have hb : ∀ v ∈ [fun _ => (100 : Nat), fun _ => 50], ∀ j : Nat, v j ≤ MAX_VAL := by
    intro v hv j
    rcases List.mem_cons.mp hv with h | h
    · subst h; exact (by decide : (100 : Nat) ≤ MAX_VAL)
    · rcases List.mem_cons.mp h with h2 | h2
      · subst h2; exact (by decide : (50 : Nat) ≤ MAX_VAL)
      · cases h2
  exact (calibrator_save 0x01 [fun _ => 100, fun _ => 50] calIdentity stZero
    (List.cons_ne_nil _ _) hb).1

/- ------------------------------------------------------------------ -/
/- C10: save without any record                                       -/
/- ------------------------------------------------------------------ -/

/-- C10.  Calling `save` right after `reset` (no `record` in between)
computes, for every channel, `range = 0 - MAX_VAL` in `uint16_t`
arithmetic, which wraps to `64513 > MAX_VAL`; as soon as at least one
channel is enabled, `setCalibration` therefore rejects the data and the
parent's calibration is unchanged. -/
theorem save_after_reset (mask : Nat) (cur : CalibrationData) (st : CalibratorState)
    (hmask : ∃ c, c < CHANNELS ∧ channelEnabled mask c = true) :
    (∀ c, (saveData (reset st)).range c = 64513) ∧ MAX_VAL < 64513 ∧
    save mask cur (reset st) = (false, cur) := by
  have hr : ∀ c, (saveData (reset st)).range c = 64513 := by
    intro c
    show (0 + 65536 - MAX_VAL) % 65536 = 64513
    norm_num [MAX_VAL]
  refine ⟨hr, by decide, ?_⟩
  obtain ⟨c, hc, he⟩ := hmask
  refine setCalibration_rejects mask cur (saveData (reset st)) ⟨c, hc, he, Or.inr (Or.inl ?_)⟩
  rw [hr c]
  decide

/-- Witness for C10: full mask, any current calibration. -/
theorem save_after_reset_witness :
    save 0xFF calIdentity (reset stZero) = (false, calIdentity) :=
  (save_after_reset 0xFF calIdentity stZero ⟨0, by decide⟩).2.2

/- ------------------------------------------------------------------ -/
/- Line estimator: LineSensor::readLine (linesensor.cpp)              -/
/- ------------------------------------------------------------------ -/

/-- Narrowing of an integer to `int16_t` (two's complement). -/
def toInt16 (x : Int) : Int := (x + 32768) % 65536 - 32768

/-- The white-line inversion `val = MAX_VAL - val` applied to a sample.
The samples fed to this code come from an uncalibrated `read`, hence are
decoded 10-bit values `≤ MAX_VAL`, so the `uint16_t` subtraction cannot
wrap. -/
def invertIfWhite (white : Bool) (v : Nat) : Nat := if white then MAX_VAL - v else v

/-- The samples of a `readLine` call after the optional inversion. -/
def processedVals (white : Bool) (vals : List Nat) : List Nat :=
  vals.map (invertIfWhite white)

/-- The accumulation loop of `LineSensor::readLine` over the remaining
samples, with `i` the current position and `(weighted, sum, on_line)` the
accumulators:

    if(white_line) val = MAX_VAL - val;
    if(val < noise) continue;
    if(val >= threshold) on_line = true;
    weighted += uint32_t(val) * i * MAX_VAL;
    sum += val;

`weighted` is a `uint32_t` and `sum` a `uint16_t`; with at most 8 samples
of at most `MAX_VAL` neither accumulator can wrap, so they are plain
naturals here. -/
def lineLoop (white : Bool) (noise threshold : Nat) :
    List Nat → Nat → Nat → Nat → Bool → Nat × Nat × Bool
  | [], _, weighted, sum, on_line => (weighted, sum, on_line)
  | v :: rest, i, weighted, sum, on_line =>
      let val := invertIfWhite white v
      if val < noise then lineLoop white noise threshold rest (i + 1) weighted sum on_line
      else
        lineLoop white noise threshold rest (i + 1)
          (weighted + val * i * MAX_VAL) (sum + val) (on_line || decide (threshold ≤ val))

/-- Model of `LineSensor::readLine` after a successful uncalibrated read
that produced `vals`.  `noise` and `threshold` are the integer thresholds
`uint16_t(noise_limit * MAX_VAL)` and `uint16_t(line_threshold * MAX_VAL)`.
`none` models the quiet-NaN not-found sentinel.

    if(sum == 0 || !on_line) return std::nanf("");
    const int16_t middle = float(vals.size()-1)/2 * MAX_VAL;
    const int16_t result = (weighted / sum) - middle;
    return std::min(1.f, std::max(-1.f, float(result) / float(middle)));

`float(vals.size()-1)/2 * MAX_VAL` is exact dyadic float arithmetic whose
`int16_t` truncation equals `(N-1) * MAX_VAL / 2` in integer arithmetic for
the sizes reachable here (`N ≤ 8`).  When `middle = 0` (exactly one
sample), `weighted` is 0, so `result = 0` and the C++ evaluates
`0.0f / 0.0f = NaN`; `std::max(-1.f, NaN)` returns its first argument
(`(a < b) ? b : a` with a false comparison) and `std::min(1.f, -1.f)`
returns `-1`, a finite value — hence the `some (-1)` branch.  The final
division is modelled exactly over `ℚ`; rounding `result / middle` to the
nearest float and clamping afterwards cannot leave `[-1, 1]`, so the
claims settled below are insensitive to that rounding. -/
def readLine (white : Bool) (noise threshold : Nat) (vals : List Nat) : Option ℚ :=
  let acc := lineLoop white noise threshold vals 0 0 0 false
  if acc.2.1 = 0 ∨ acc.2.2 = false then none
  else
    let middle : Int := toInt16 (((vals.length - 1) * MAX_VAL / 2 : Nat) : Int)
    let result : Int := toInt16 (((acc.1 / acc.2.1 : Nat) : Int) - middle)
    if middle = 0 then some (-1)
    else some (min 1 (max (-1) ((result : ℚ) / (middle : ℚ))))

/-- The weighted accumulator collected from position `i` on. -/
def wAux (noise : Nat) : List Nat → Nat → Nat
  | [], _ => 0
  | v :: rest, i => (if v < noise then 0 else v * i * MAX_VAL) + wAux noise rest (i + 1)

/-- The plain-sum accumulator. -/
def sAux (noise : Nat) : List Nat → Nat
  | [] => 0
  | v :: rest => (if v < noise then 0 else v) + sAux noise rest

/-- The on-line flag: some sample passed the noise floor and reached the
threshold. -/
def onAux (noise threshold : Nat) (l : List Nat) : Bool :=
  l.any (fun v => !decide (v < noise) && decide (threshold ≤ v))

lemma lineLoop_eq (white : Bool) (noise threshold : Nat) :
    ∀ (l : List Nat) (i w s : Nat) (o : Bool),
      lineLoop white noise threshold l i w s o =
        (w + wAux noise (processedVals white l) i,
         s + sAux noise (processedVals white l),
         o || onAux noise threshold (processedVals white l)) := by
  intro l
  induction l with
  | nil =>
      intro i w s o
      simp [lineLoop, processedVals, wAux, sAux, onAux]
  | cons v rest ih =>
      intro i w s o
      have hpv : processedVals white (v :: rest) =
          invertIfWhite white v :: processedVals white rest := rfl
      rw [hpv]
      by_cases h : invertIfWhite white v < noise
      · rw [show lineLoop white noise threshold (v :: rest) i w s o =
              lineLoop white noise threshold rest (i + 1) w s o by
            simp [lineLoop, h]]
        rw [ih (i + 1) w s o]
        simp [wAux, sAux, onAux, h]
      · rw [show lineLoop white noise threshold (v :: rest) i w s o =
              lineLoop white noise threshold rest (i + 1)
                (w + invertIfWhite white v * i * MAX_VAL) (s + invertIfWhite white v)
                (o || decide (threshold ≤ invertIfWhite white v)) by
            simp [lineLoop, h]]
        rw [ih (i + 1)]
        simp only [wAux, sAux, onAux, if_neg h, List.any_cons, Prod.mk.injEq]
        refine ⟨by omega, by omega, ?_⟩
        have hd : (!decide (invertIfWhite white v < noise)) = true := by simp [h]
        rw [hd, Bool.true_and, Bool.or_assoc]

lemma sAux_eq_filter_sum (noise : Nat) :
    ∀ l : List Nat, sAux noise l = (l.filter (fun v => decide (noise ≤ v))).sum := by
  intro l
  induction l with
  | nil => rfl
  | cons v rest ih =>
      by_cases h : v < noise
      · have hd : decide (noise ≤ v) = false := by simp; omega
        simp [sAux, if_pos h, hd, ih]
      · have hd : decide (noise ≤ v) = true := by simp; omega
        simp [sAux, if_neg h, hd, ih]

lemma sum_eq_zero_of_all_zero : ∀ {l : List Nat}, (∀ x ∈ l, x = 0) → l.sum = 0 := by
  intro l
  induction l with
  | nil => intro _; rfl
  | cons x rest ih =>
      intro h
      rw [List.sum_cons, h x (List.mem_cons_self _ _),
        ih (fun y hy => h y (List.mem_cons_of_mem _ hy))]

lemma wAux_le (noise : Nat) :
    ∀ (l : List Nat) (i : Nat), wAux noise l i ≤ sAux noise l * ((i + l.length) * MAX_VAL) := by
  intro l
  induction l with
  | nil => intro i; simp [wAux, sAux]
  | cons v rest ih =>
      intro i
      show (if v < noise then 0 else v * i * MAX_VAL) + wAux noise rest (i + 1) ≤
        ((if v < noise then 0 else v) + sAux noise rest) * ((i + (rest.length + 1)) * MAX_VAL)
      have hrest := ih (i + 1)
      have hlen : i + 1 + rest.length = i + (rest.length + 1) := by omega
      rw [hlen] at hrest
      by_cases h : v < noise
      · simp only [if_pos h, Nat.zero_add, Nat.zero_mul]
        exact Nat.le_trans hrest (Nat.le_refl _)
      · simp only [if_neg h]
        have hv : v * i * MAX_VAL ≤ v * ((i + (rest.length + 1)) * MAX_VAL) := by
          rw [Nat.mul_assoc]
          exact Nat.mul_le_mul_left v
            (Nat.mul_le_mul_right MAX_VAL (by omega))
        calc v * i * MAX_VAL + wAux noise rest (i + 1)
            ≤ v * ((i + (rest.length + 1)) * MAX_VAL) +
              sAux noise rest * ((i + (rest.length + 1)) * MAX_VAL) :=
              Nat.add_le_add hv hrest
          _ = (v + sAux noise rest) * ((i + (rest.length + 1)) * MAX_VAL) := by
              ring

lemma toInt16_eq_self (x : Int) (h1 : -32768 ≤ x) (h2 : x < 32768) : toInt16 x = x := by
  unfold toInt16
  have : (x + 32768) % 65536 = x + 32768 :=
    Int.emod_eq_of_lt (by omega) (by omega)
  omega

lemma toInt16_natCast (b : Nat) (hb : b ≤ 3580) : toInt16 (b : Int) = (b : Int) := by
  apply toInt16_eq_self <;> omega

lemma toInt16_natCast_sub_natCast (a b : Nat) (ha : a ≤ 8184) (hb : b ≤ 3580) :
    toInt16 ((a : Int) - (b : Int)) = (a : Int) - (b : Int) := by
  apply toInt16_eq_self <;> omega

/-- C6.  `readLine` (the canonical noise-floor/threshold variant of
linesensor.cpp) returns the not-found sentinel exactly when the plain sum
accumulated over the (inverted, if requested) samples at or above the
noise floor is zero, or no such sample is at or above the threshold. -/
theorem readLine_nan_iff (white : Bool) (noise threshold : Nat) (vals : List Nat) :
    readLine white noise threshold vals = none ↔
      ((processedVals white vals).filter (fun v => decide (noise ≤ v))).sum = 0 ∨
        ∀ v ∈ processedVals white vals, v < threshold := by
  have hacc := lineLoop_eq white noise threshold vals 0 0 0 false
  have hcond : readLine white noise threshold vals = none ↔
      (sAux noise (processedVals white vals) = 0 ∨
        onAux noise threshold (processedVals white vals) = false) := by
    unfold readLine
    rw [hacc]
    simp only [Nat.zero_add, Bool.false_or]
    by_cases h : sAux noise (processedVals white vals) = 0 ∨
        onAux noise threshold (processedVals white vals) = false
    · simp [h]
    · rw [if_neg h]
      constructor
      · intro hcontra
        exfalso
        revert hcontra
        split <;> simp
      · intro hcontra
        exact absurd hcontra h
  rw [hcond, ← sAux_eq_filter_sum]
  constructor
  · rintro (h | h)
    · exact Or.inl h
    · by_cases hS : sAux noise (processedVals white vals) = 0
      · exact Or.inl hS
      · right
        have hall : ∀ v ∈ processedVals white vals,
            ¬ ((!decide (v < noise) && decide (threshold ≤ v)) = true) := by
          intro v hv
          exact List.any_eq_false.mp h v hv
        -- some sample passed the noise floor and is nonzero
        have hex : ∃ v1, v1 ∈ processedVals white vals ∧ noise ≤ v1 ∧ v1 ≠ 0 := by
          rw [sAux_eq_filter_sum] at hS
          by_contra hno
          push_neg at hno
          apply hS
          apply sum_eq_zero_of_all_zero
          intro x hx
          obtain ⟨hxmem, hxnoise⟩ := List.mem_filter.mp hx
          exact hno x hxmem (by simpa using hxnoise)
        obtain ⟨v1, hv1mem, hv1noise, hv1ne⟩ := hex
        intro v0 hv0
        by_contra hth
        push_neg at hth
        have h0 : v0 < noise := by
          by_contra hnn
          exact hall v0 hv0 (by simp [hnn, hth])
        have h1 : v1 < threshold := by
          by_contra hnt
          refine hall v1 hv1mem ?_
          have hnn1 : ¬ (v1 < noise) := by omega
          have ht1 : threshold ≤ v1 := by omega
          simp [hnn1, ht1]
        omega
  · rintro (h | h)
    · exact Or.inl h
    · right
      refine List.any_eq_false.mpr ?_
      intro v hv
      have := h v hv
      simp
      omega

/-- C7.  Whenever `readLine` returns a finite value, that value lies in
`[-1, +1]`; moreover, when `middle = (N-1) * MAX_VAL / 2` is nonzero the
value equals `clamp((weighted / sum - middle) / middle, -1, +1)` with exact
integer division — under the pipeline bound of at most `CHANNELS` samples
the `int16_t` narrowings of `middle` and `result` are the identity. -/
theorem readLine_finite_range (white : Bool) (noise threshold : Nat) (vals : List Nat) (q : ℚ)
    (h8 : vals.length ≤ CHANNELS)
    (hq : readLine white noise threshold vals = some q) :
    (-1 ≤ q ∧ q ≤ 1) ∧
    ((vals.length - 1) * MAX_VAL / 2 ≠ 0 →
      q = min 1 (max (-1)
        ((((wAux noise (processedVals white vals) 0 /
              sAux noise (processedVals white vals) : Nat) : ℚ) -
            (((vals.length - 1) * MAX_VAL / 2 : Nat) : ℚ)) /
          (((vals.length - 1) * MAX_VAL / 2 : Nat) : ℚ)))) := by
  have hacc := lineLoop_eq white noise threshold vals 0 0 0 false
  unfold readLine at hq
  rw [hacc] at hq
  simp only [Nat.zero_add, Bool.false_or] at hq
  set pv := processedVals white vals with hpvdef
  set W := wAux noise pv 0 with hWdef
  set S := sAux noise pv with hSdef
  set midN := (vals.length - 1) * MAX_VAL / 2 with hmiddef
  by_cases hg : S = 0 ∨ onAux noise threshold pv = false
  · rw [if_pos hg] at hq
    exact absurd hq (by simp)
  · rw [if_neg hg] at hq
    have hM : MAX_VAL = 1023 := rfl
    have hC : CHANNELS = 8 := rfl
    have hlen : vals.length ≤ 8 := by omega
    have hmidN : midN ≤ 3580 := by
      rw [hmiddef, hM]
      omega
    have hS0 : S ≠ 0 := fun hc => hg (Or.inl hc)
    have hWle : W ≤ S * (vals.length * MAX_VAL) := by
      have h0 := wAux_le noise pv 0
      have hpvlen : pv.length = vals.length := List.length_map _ _
      rw [hpvlen] at h0
      simpa using h0
    have hWS : W / S ≤ vals.length * MAX_VAL := by
      calc W / S ≤ S * (vals.length * MAX_VAL) / S := Nat.div_le_div_right hWle
        _ = vals.length * MAX_VAL := Nat.mul_div_cancel_left _ (Nat.pos_of_ne_zero hS0)
    have hWS2 : W / S ≤ 8184 := by
      rw [hM] at hWS
      omega
    rw [toInt16_natCast midN hmidN] at hq
    have hres16 := toInt16_natCast_sub_natCast (W / S) midN hWS2 hmidN
    by_cases hm : (midN : Int) = 0
    · rw [if_pos hm] at hq
      have hq2 : q = -1 := (Option.some.inj hq).symm
      subst hq2
      refine ⟨⟨le_refl _, by norm_num⟩, ?_⟩
      intro hmn
      exfalso
      exact hmn (by exact_mod_cast hm)
    · rw [if_neg hm, hres16] at hq
      have hq2 := (Option.some.inj hq).symm
      subst hq2
      refine ⟨⟨le_min (by norm_num) (le_max_left _ _), min_le_left _ _⟩, ?_⟩
      intro _
      simp only [Int.cast_sub, Int.cast_natCast]

/-- Witness for C7: the spec's scenario C — eight samples
`[0,0,0,800,800,0,0,0]`, noise floor 51, threshold 204 — yields the finite
value 0, which is in `[-1, 1]`. -/
theorem readLine_finite_range_witness :
    readLine false 51 204 [0, 0, 0, 800, 800, 0, 0, 0] = some 0 ∧
    (-1 : ℚ) ≤ 0 ∧ (0 : ℚ) ≤ 1 := by
  have hval : readLine false 51 204 [0, 0, 0, 800, 800, 0, 0, 0] = some 0 := by
    have hacc : lineLoop false 51 204 [0, 0, 0, 800, 800, 0, 0, 0] 0 0 0 false =
        (5728800, 1600, true) := by decide
    unfold readLine
    rw [hacc]
    norm_num [toInt16, MAX_VAL]
  have h := readLine_finite_range false 51 204 [0, 0, 0, 800, 800, 0, 0, 0] 0
    (by decide) hval
  exact ⟨hval, h.1.1, h.1.2⟩

/- ------------------------------------------------------------------ -/
/- C8: the vector-appending read                                      -/
/- ------------------------------------------------------------------ -/

/-- `std::vector<uint16_t>::resize`: truncate, or extend with
value-initialized (zero) elements. -/
def listResize (l : List Nat) (n : Nat) : List Nat :=
  if n ≤ l.length then l.take n else l ++ List.replicate (n - l.length) 0

/-- Model of `esp_err_t LineSensor::read(std::vector<uint16_t>&, bool, bool)`:

    const size_t orig_size = results.size();
    results.resize(orig_size + requested);
    esp_err_t res = this->read(results.data() + orig_size, ...);
    if(res != ESP_OK) { results.resize(orig_size); return res; }
    return ESP_OK;

The raw-pointer read sees the freshly appended region through the offset
base `results.data() + orig_size` (all zeros); afterwards the vector is the
untouched original prefix followed by the final contents of that region
(the engine stores only through `dest[tag]` with tags below `requested`
under the adapter contract — a larger tag would be a buffer overrun, which
the model clips).  The result is (returned code, final vector). -/
def readVec (installed : Bool) (mask : Nat) (cal : CalibrationData)
    (useCalibration differential : Bool) (env : BusEnv) (results : List Nat) :
    Int × List Nat :=
  let requested := popcount mask
  let origSize := results.length
  let grown := listResize results (origSize + requested)
  let r := readPtr installed mask cal useCalibration differential env
    (fun k => grown.getD (origSize + k) 0)
  let written := results ++ (List.range requested).map r.2
  if r.1 ≠ ESP_OK then (r.1, listResize written origSize) else (r.1, written)

lemma getD_replicate_zero : ∀ (m j : Nat), (List.replicate m (0 : Nat)).getD j 0 = 0 := by
  intro m
  induction m with
  | zero => intro j; rfl
  | succ m ih =>
      intro j
      cases j with
      | zero => rfl
      | succ j => exact ih j

/-- The appended region starts out all zeros, whatever the original vector
contents: the pointer read's initial `dest` is the constant 0. -/
lemma listResize_getD_offset (results : List Nat) (n k : Nat) :
    (listResize results (results.length + n)).getD (results.length + k) 0 = 0 := by
  unfold listResize
  split
  · rename_i hle
    apply List.getD_eq_default
    have := List.length_take_le (results.length + n) results
    omega
  · rw [List.getD_append_right _ _ _ _ (by omega)]
    exact getD_replicate_zero _ _

/-- C8.  The vector-appending `read` returns exactly the code of the
raw-pointer read on the appended region; on any error (not-installed or any
bus-adapter error) the vector is restored to its original contents, and on
success it is the original vector with exactly `popcount mask` samples
appended — the samples the raw-pointer form produces. -/
theorem read_vector (installed : Bool) (mask : Nat) (cal : CalibrationData)
    (useCalibration differential : Bool) (env : BusEnv) (results : List Nat) :
    (readVec installed mask cal useCalibration differential env results).1 =
      (readPtr installed mask cal useCalibration differential env (fun _ => 0)).1 ∧
    ((readPtr installed mask cal useCalibration differential env (fun _ => 0)).1 ≠ ESP_OK →
      (readVec installed mask cal useCalibration differential env results).2 = results) ∧
    ((readPtr installed mask cal useCalibration differential env (fun _ => 0)).1 = ESP_OK →
      (readVec installed mask cal useCalibration differential env results).2 =
        results ++ (List.range (popcount mask)).map
          (readPtr installed mask cal useCalibration differential env (fun _ => 0)).2 ∧
      (readVec installed mask cal useCalibration differential env results).2.length =
        results.length + popcount mask) := by
  have hdest : (fun k => (listResize results (results.length + popcount mask)).getD
      (results.length + k) 0) = fun _ => (0 : Nat) := by
    funext k
    exact listResize_getD_offset results (popcount mask) k
  simp only [readVec]
  rw [hdest]
  by_cases herr : (readPtr installed mask cal useCalibration differential env (fun _ => 0)).1 =
      ESP_OK
  · rw [if_neg (not_not_intro herr)]
    refine ⟨rfl, fun hne => absurd herr hne, fun _ => ⟨rfl, ?_⟩⟩
    simp
  · rw [if_pos herr]
    refine ⟨rfl, fun _ => ?_, fun hok => absurd hok herr⟩
    unfold listResize
    rw [if_pos (by simp)]
    exact List.take_left _ _

end Mcp3008
